import Mathlib

/-!
Verification of the Advance Ledger + Compensation engine of the
`server_labour` repository, via a shallow embedding of the route handlers
in `src/routes/advances.js`, `src/routes/bonus.js`, `src/routes/entries.js`
and the salary-report route (`save-salary-history`).

Amounts and balances are rationals (JS numbers used as decimals).
Dates appear only as opaque day codes (`Nat`) since no claim depends on
calendar arithmetic.  The JS idiom `x || y` on numbers is modelled by
`jsOr` (`0` is the only falsy numeric value that occurs here).
-/

namespace LabourServer

/-- JS `x || y` for numeric values: `0` is falsy. -/
def jsOr (a b : ℚ) : ℚ := if a = 0 then b else a

theorem jsOr_zero (a : ℚ) : jsOr a 0 = a := by
  unfold jsOr; split <;> simp_all

/-! Section: Ledger store (`src/routes/advances.js`, Advance model)

The `Advance` collection is an append-only log per worker; the worker
document caches `advanceBalance`, `totalAdvanceTaken`, `totalAdvanceRepaid`.
The routes operate on a single worker at a time, so the ledger state is
modelled per worker. -/

/-- The `type` enum of the Advance schema. -/
inductive AdvanceType where
  | advance
  | repayment
  | deposit
deriving DecidableEq, Repr

/-- One Advance document (worker reference left implicit, date/notes dropped). -/
structure AdvanceTx where
  type : AdvanceType
  amount : ℚ
  balanceAfter : ℚ
deriving DecidableEq, Repr

/-- The advance-tracking fields of a Worker document. -/
structure LWorker where
  advanceBalance : ℚ
  totalAdvanceTaken : ℚ
  totalAdvanceRepaid : ℚ
deriving DecidableEq, Repr

/-- Per-worker ledger state: the worker document plus its Advance log
in chronological order. -/
structure LState where
  worker : LWorker
  ledger : List AdvanceTx
deriving DecidableEq, Repr

/-- Fresh worker: schema defaults (all zero). -/
def initialState : LState := ⟨⟨0, 0, 0⟩, []⟩

/-- Error outcomes of the advance routes. -/
inductive LedgerError where
  | validationError
  | noOutstandingAdvance
  | insufficientBalance
deriving DecidableEq, Repr

/-- The `POST /advances/give`: no amount validation at all; computes
`newBalance = advanceBalance + amount`, saves the transaction with
`balanceAfter = newBalance` and updates the worker. -/
def giveAdvance (amount : ℚ) (s : LState) : LState :=
  let newBalance := s.worker.advanceBalance + amount
  { worker := { s.worker with
      advanceBalance := newBalance,
      totalAdvanceTaken := s.worker.totalAdvanceTaken + amount },
    ledger := s.ledger ++ [⟨.advance, amount, newBalance⟩] }

/-- The `POST /advances/repay`: rejects only `amount > advanceBalance`;
otherwise posts a repayment with `balanceAfter = advanceBalance - amount`. -/
def repayAdvance (amount : ℚ) (s : LState) : Except LedgerError LState :=
  if amount > s.worker.advanceBalance then
    .error .insufficientBalance
  else
    let newBalance := s.worker.advanceBalance - amount
    .ok { worker := { s.worker with
            advanceBalance := newBalance,
            totalAdvanceRepaid := s.worker.totalAdvanceRepaid + amount },
          ledger := s.ledger ++ [⟨.repayment, amount, newBalance⟩] }

/-- The `POST /advances/deposit`: rejects `!amount || amount <= 0`, then
`currentBalance <= 0`, then `amount > currentBalance`; otherwise posts a
deposit with `balanceAfter = currentBalance - amount`. -/
def recordDeposit (amount : ℚ) (s : LState) : Except LedgerError LState :=
  if amount ≤ 0 then
    .error .validationError
  else
    let currentBalance := jsOr s.worker.advanceBalance 0
    if currentBalance ≤ 0 then
      .error .noOutstandingAdvance
    else if amount > currentBalance then
      .error .insufficientBalance
    else
      let newBalance := currentBalance - amount
      .ok { worker := { s.worker with
              advanceBalance := newBalance,
              totalAdvanceRepaid := s.worker.totalAdvanceRepaid + amount },
            ledger := s.ledger ++ [⟨.deposit, amount, newBalance⟩] }

/-- Per-record deposit posting of `POST /bonus/save-bonus-history`
(bonus.js): if `deposit > 0` it posts a deposit of the full amount but
CLAMPS the new balance, `newBalance = max(0, advanceBalance - deposit)`,
with no insufficient-balance check. -/
def bonusHistoryDeposit (depositAmount : ℚ) (s : LState) : LState :=
  if depositAmount > 0 then
    let newBalance := max 0 (s.worker.advanceBalance - depositAmount)
    { worker := { s.worker with
        advanceBalance := newBalance,
        totalAdvanceRepaid := s.worker.totalAdvanceRepaid + depositAmount },
      ledger := s.ledger ++ [⟨.deposit, depositAmount, newBalance⟩] }
  else s

/-- A rejected repayment leaves the stored state unchanged. -/
def applyRepay (amount : ℚ) (s : LState) : LState :=
  match repayAdvance amount s with
  | .ok s' => s'
  | .error _ => s

/-- A rejected deposit leaves the stored state unchanged. -/
def applyDeposit (amount : ℚ) (s : LState) : LState :=
  match recordDeposit amount s with
  | .ok s' => s'
  | .error _ => s

/-- Signed value of a transaction: credit-advance counts `+amount`,
debit-repayment and debit-deposit count `-amount`. -/
def signedAmount (tx : AdvanceTx) : ℚ :=
  match tx.type with
  | .advance => tx.amount
  | .repayment => -tx.amount
  | .deposit => -tx.amount

/-- Sum of signed transaction amounts over a ledger history. -/
def sumSigned (l : List AdvanceTx) : ℚ := (l.map signedAmount).sum

/-- The `balanceAfter` of the last transaction, or `prior` for an empty log. -/
def lastBalanceFrom (prior : ℚ) (l : List AdvanceTx) : ℚ :=
  match l.getLast? with
  | some tx => tx.balanceAfter
  | none => prior

/-- Chain check: starting from `prior`, every transaction satisfies
`balanceAfter = prior + signedAmount`. -/
def consistentFrom : ℚ → List AdvanceTx → Bool
  | _, [] => true
  | prior, tx :: rest =>
      (tx.balanceAfter == prior + signedAmount tx) && consistentFrom tx.balanceAfter rest

/-- States reachable through the ledger-mutating endpoints
(give / repay / deposit / save-bonus-history deposit), with the
arbitrary request amounts the code accepts. -/
inductive Reachable : LState → Prop
  | init : Reachable initialState
  | give (a : ℚ) {s : LState} : Reachable s → Reachable (giveAdvance a s)
  | repay (a : ℚ) {s : LState} : Reachable s → Reachable (applyRepay a s)
  | deposit (a : ℚ) {s : LState} : Reachable s → Reachable (applyDeposit a s)
  | bonusDeposit (a : ℚ) {s : LState} : Reachable s → Reachable (bonusHistoryDeposit a s)

/-- Reachability under the spec's input domain: request amounts are
non-negative, and a save-bonus-history deposit never exceeds the balance
it is posted against (the condition the clamping code otherwise breaks). -/
inductive ReachableSpec : LState → Prop
  | init : ReachableSpec initialState
  | give (a : ℚ) (s : LState) : ReachableSpec s → 0 ≤ a →
      ReachableSpec (giveAdvance a s)
  | repay (a : ℚ) (s : LState) : ReachableSpec s →
      ReachableSpec (applyRepay a s)
  | deposit (a : ℚ) (s : LState) : ReachableSpec s →
      ReachableSpec (applyDeposit a s)
  | bonusDeposit (a : ℚ) (s : LState) : ReachableSpec s →
      a ≤ s.worker.advanceBalance →
      ReachableSpec (bonusHistoryDeposit a s)

theorem sumSigned_append_one (l : List AdvanceTx) (tx : AdvanceTx) :
    sumSigned (l ++ [tx]) = sumSigned l + signedAmount tx := by
  simp [sumSigned]

theorem lastBalanceFrom_concat (prior : ℚ) (l : List AdvanceTx) (tx : AdvanceTx) :
    lastBalanceFrom prior (l ++ [tx]) = tx.balanceAfter := by
  simp [lastBalanceFrom]

theorem consistentFrom_append_one (prior : ℚ) (l : List AdvanceTx) (tx : AdvanceTx) :
    consistentFrom prior (l ++ [tx]) =
      (consistentFrom prior l && (tx.balanceAfter == lastBalanceFrom prior l + signedAmount tx)) := by
  induction l generalizing prior with
  | nil => simp [consistentFrom, lastBalanceFrom]
  | cons t rest ih =>
      have hlast : lastBalanceFrom prior (t :: rest) = lastBalanceFrom t.balanceAfter rest := by
        cases rest with
        | nil => simp [lastBalanceFrom]
        | cons h2 t2 =>
            rcases hx : (h2 :: t2).getLast? with _ | x
            · simp at hx
            · simp [lastBalanceFrom, List.getLast?_cons_cons, hx]
      rw [List.cons_append]
      show ((t.balanceAfter == prior + signedAmount t) &&
          consistentFrom t.balanceAfter (rest ++ [tx])) = _
      rw [ih, hlast]
      simp only [consistentFrom]
      rw [Bool.and_assoc]

/-- The ledger-store invariant: the cached balance reconciles against the
full history, the log is chain-consistent from 0, and nothing is negative. -/
def LedgerInv (s : LState) : Prop :=
  s.worker.advanceBalance = sumSigned s.ledger ∧
  consistentFrom 0 s.ledger = true ∧
  0 ≤ s.worker.advanceBalance ∧
  (∀ tx ∈ s.ledger, 0 ≤ tx.balanceAfter) ∧
  lastBalanceFrom 0 s.ledger = s.worker.advanceBalance

theorem LedgerInv.append_step {s : LState} (inv : LedgerInv s)
    (ty : AdvanceType) (a newBal : ℚ) (w' : LWorker)
    (hbal : newBal = s.worker.advanceBalance + signedAmount ⟨ty, a, newBal⟩)
    (hnn : 0 ≤ newBal) (hw : w'.advanceBalance = newBal) :
    LedgerInv ⟨w', s.ledger ++ [⟨ty, a, newBal⟩]⟩ := by
  obtain ⟨h1, h2, h3, h4, h5⟩ := inv
  refine ⟨?_, ?_, ?_, ?_, ?_⟩
  · show w'.advanceBalance = sumSigned (s.ledger ++ [⟨ty, a, newBal⟩])
    rw [hw, sumSigned_append_one, ← h1]
    exact hbal
  · show consistentFrom 0 (s.ledger ++ [⟨ty, a, newBal⟩]) = true
    rw [consistentFrom_append_one, h2, Bool.true_and, h5]
    exact beq_iff_eq.mpr hbal
  · show 0 ≤ w'.advanceBalance
    rw [hw]; exact hnn
  · intro tx htx
    rcases List.mem_append.mp htx with hmem | hmem
    · exact h4 tx hmem
    · have : tx = ⟨ty, a, newBal⟩ := by simpa using hmem
      rw [this]; exact hnn
  · show lastBalanceFrom 0 (s.ledger ++ [⟨ty, a, newBal⟩]) = w'.advanceBalance
    rw [lastBalanceFrom_concat, hw]

/-- C1 (amended): over the ledger endpoints, with non-negative request
amounts and no clamped save-bonus-history deposit (deposit ≤ balance at
posting time), the cached balance always equals the sum of signed amounts
over the full history, every transaction satisfies
`balanceAfter = priorBalance + signedAmount`, and no balance is ever
negative. -/
theorem ledger_balance_invariant (s : LState) (h : ReachableSpec s) : LedgerInv s := by
  induction h with
  | init =>
      refine ⟨by simp [initialState, sumSigned], rfl, le_refl 0, ?_, rfl⟩
      intro tx htx
      simp [initialState] at htx
  | give a s hs ha ih =>
      exact ih.append_step .advance a (s.worker.advanceBalance + a) _
        (by simp [signedAmount]) (add_nonneg ih.2.2.1 ha) rfl
  | repay a s hs ih =>
      by_cases hgt : a > s.worker.advanceBalance
      · simpa [applyRepay, repayAdvance, hgt] using ih
      · have hle : a ≤ s.worker.advanceBalance := le_of_not_lt hgt
        have : applyRepay a s =
            ⟨{ s.worker with
                advanceBalance := s.worker.advanceBalance - a,
                totalAdvanceRepaid := s.worker.totalAdvanceRepaid + a },
              s.ledger ++ [⟨.repayment, a, s.worker.advanceBalance - a⟩]⟩ := by
          simp [applyRepay, repayAdvance, hgt]
        rw [this]
        exact ih.append_step .repayment a (s.worker.advanceBalance - a) _
          (by simp [signedAmount]; ring) (by linarith) rfl
  | deposit a s hs ih =>
      by_cases h0 : a ≤ 0
      · simpa [applyDeposit, recordDeposit, h0] using ih
      · by_cases hb : jsOr s.worker.advanceBalance 0 ≤ 0
        · simpa [applyDeposit, recordDeposit, h0, hb] using ih
        · by_cases hgt : a > jsOr s.worker.advanceBalance 0
          · simpa [applyDeposit, recordDeposit, h0, hb, hgt] using ih
          · have hj : jsOr s.worker.advanceBalance 0 = s.worker.advanceBalance := jsOr_zero _
            have : applyDeposit a s =
                ⟨{ s.worker with
                    advanceBalance := s.worker.advanceBalance - a,
                    totalAdvanceRepaid := s.worker.totalAdvanceRepaid + a },
                  s.ledger ++ [⟨.deposit, a, s.worker.advanceBalance - a⟩]⟩ := by
              simp only [applyDeposit, recordDeposit, if_neg h0, hj, if_neg (hj ▸ hb),
                if_neg (hj ▸ hgt)]
            rw [this]
            rw [hj] at hgt
            exact ih.append_step .deposit a (s.worker.advanceBalance - a) _
              (by simp [signedAmount]; ring) (by linarith [le_of_not_lt hgt]) rfl
  | bonusDeposit a s hs hle ih =>
      by_cases hpos : a > 0
      · have hmax : max 0 (s.worker.advanceBalance - a) = s.worker.advanceBalance - a :=
          max_eq_right (by linarith)
        have : bonusHistoryDeposit a s =
            ⟨{ s.worker with
                advanceBalance := s.worker.advanceBalance - a,
                totalAdvanceRepaid := s.worker.totalAdvanceRepaid + a },
              s.ledger ++ [⟨.deposit, a, s.worker.advanceBalance - a⟩]⟩ := by
          simp only [bonusHistoryDeposit, if_pos hpos, hmax]
        rw [this]
        exact ih.append_step .deposit a (s.worker.advanceBalance - a) _
          (by simp [signedAmount]; ring) (by linarith) rfl
      · simpa [bonusHistoryDeposit, hpos] using ih

theorem ledger_balance_invariant_witness :
    LedgerInv (applyDeposit 50 (giveAdvance 100 initialState)) :=
  ledger_balance_invariant _
    (ReachableSpec.deposit 50 _
      (ReachableSpec.give 100 _ ReachableSpec.init (by norm_num)))

/-- State produced by `give 100` followed by a save-bonus-history deposit
of 150: the code clamps the balance at 0 but records a 150 deposit. -/
def clampedState : LState := bonusHistoryDeposit 150 (giveAdvance 100 initialState)

/-- C1 counterexample: at the reachable state above, the cached balance (0)
differs from the sum of signed amounts (−50), and the appended deposit
violates `balanceAfter = priorBalance + signedAmount`. -/
theorem ledger_balance_invariant_cex :
    Reachable clampedState ∧
    clampedState.worker.advanceBalance = 0 ∧
    sumSigned clampedState.ledger = -50 ∧
    consistentFrom 0 clampedState.ledger = false := by
  refine ⟨Reachable.bonusDeposit 150 (Reachable.give 100 Reachable.init), ?_, ?_, ?_⟩ <;>
    simp [clampedState, bonusHistoryDeposit, giveAdvance, initialState,
      sumSigned, signedAmount, consistentFrom] <;> norm_num

/-- C2 (amended): `give` performs no amount validation and always persists;
`deposit` rejects non-positive amounts; both debit kinds reject
`amount > advanceBalance`, leaving worker and ledger unchanged; accepted
calls persist the transaction with `balanceAfter` equal to the new cached
balance. -/
theorem appendTransaction_validation (s : LState) (a : ℚ) :
    ((giveAdvance a s).ledger =
        s.ledger ++ [⟨.advance, a, s.worker.advanceBalance + a⟩] ∧
      (giveAdvance a s).worker.advanceBalance = s.worker.advanceBalance + a) ∧
    (a ≤ 0 → recordDeposit a s = .error .validationError) ∧
    (a > s.worker.advanceBalance →
      repayAdvance a s = .error .insufficientBalance ∧ applyRepay a s = s) ∧
    (a > s.worker.advanceBalance →
      (recordDeposit a s).isOk = false ∧ applyDeposit a s = s) ∧
    (a ≤ s.worker.advanceBalance →
      repayAdvance a s = .ok
        ⟨{ s.worker with
            advanceBalance := s.worker.advanceBalance - a,
            totalAdvanceRepaid := s.worker.totalAdvanceRepaid + a },
          s.ledger ++ [⟨.repayment, a, s.worker.advanceBalance - a⟩]⟩) ∧
    (0 < a → a ≤ s.worker.advanceBalance →
      recordDeposit a s = .ok
        ⟨{ s.worker with
            advanceBalance := s.worker.advanceBalance - a,
            totalAdvanceRepaid := s.worker.totalAdvanceRepaid + a },
          s.ledger ++ [⟨.deposit, a, s.worker.advanceBalance - a⟩]⟩) := by
  have hj : jsOr s.worker.advanceBalance 0 = s.worker.advanceBalance := jsOr_zero _
  refine ⟨⟨rfl, rfl⟩, ?_, ?_, ?_, ?_, ?_⟩
  · intro h0
    simp [recordDeposit, h0]
  · intro hgt
    constructor
    · simp [repayAdvance, hgt]
    · simp [applyRepay, repayAdvance, hgt]
  · intro hgt
    by_cases h0 : a ≤ 0
    · constructor
      · simp [recordDeposit, h0, Except.isOk, Except.toBool]
      · simp [applyDeposit, recordDeposit, h0]
    · by_cases hb : jsOr s.worker.advanceBalance 0 ≤ 0
      · constructor
        · simp [recordDeposit, h0, hb, Except.isOk, Except.toBool]
        · simp [applyDeposit, recordDeposit, h0, hb]
      · have hgt' : a > jsOr s.worker.advanceBalance 0 := by rw [hj]; exact hgt
        constructor
        · simp [recordDeposit, h0, hb, hgt', Except.isOk, Except.toBool]
        · simp [applyDeposit, recordDeposit, h0, hb, hgt']
  · intro hle
    have hgt : ¬ a > s.worker.advanceBalance := not_lt.mpr hle
    simp [repayAdvance, hgt]
  · intro hpos hle
    have h0 : ¬ a ≤ 0 := not_le.mpr hpos
    have hb : ¬ jsOr s.worker.advanceBalance 0 ≤ 0 := by
      rw [hj]; exact not_le.mpr (lt_of_lt_of_le hpos hle)
    have hb' : ¬ s.worker.advanceBalance ≤ 0 := hj ▸ hb
    have hgt' : ¬ s.worker.advanceBalance < a := not_lt.mpr hle
    simp [recordDeposit, h0, hb', hgt', hj]

theorem appendTransaction_validation_witness :
    recordDeposit (-5) initialState = .error .validationError :=
  (appendTransaction_validation initialState (-5)).2.1 (by norm_num)

/-- C2 counterexample: `give` with the non-positive amount −50 is not
rejected: it persists a transaction and drives the balance to −50
(and `repay` likewise accepts −50). -/
theorem give_accepts_nonpositive_cex :
    (giveAdvance (-50) initialState).ledger.length = 1 ∧
    (giveAdvance (-50) initialState).worker.advanceBalance = -50 ∧
    repayAdvance (-50) initialState =
      .ok ⟨⟨50, 0, -50⟩, [⟨.repayment, -50, 50⟩]⟩ := by
  refine ⟨?_, ?_, ?_⟩ <;>
    simp [giveAdvance, repayAdvance, initialState]

/-! Section: Attendance pay (`src/routes/entries.js`, `POST /entries/bulk`)

The file holds two iterations of the bulk upsert; they differ in the pay
formula for half-day entries. -/

/-- DailyEntry `status` enum. -/
inductive AttStatus where
  | present
  | absent
  | holiday
  | halfDay
deriving DecidableEq, Repr

/-- Rate-relevant fields of a Worker document. -/
structure AWorker where
  hourlyRate : ℚ
  dailyPay : ℚ
  dailyWorkingHours : ℚ
deriving DecidableEq, Repr

/-- Earlier variant's rate:
`worker.hourlyRate || (worker.dailyPay ? worker.dailyPay / worker.dailyWorkingHours : 0)`. -/
def effectiveRateV1 (w : AWorker) : ℚ :=
  jsOr w.hourlyRate (if w.dailyPay ≠ 0 then w.dailyPay / w.dailyWorkingHours else 0)

/-- Later variant's rate: the denominator defaults to 8,
`worker.dailyPay / (worker.dailyWorkingHours || 8)`. -/
def effectiveRateV2 (w : AWorker) : ℚ :=
  jsOr w.hourlyRate (if w.dailyPay ≠ 0 then w.dailyPay / jsOr w.dailyWorkingHours 8 else 0)

/-- Pay computation of the earlier `POST /entries/bulk`: present/holiday pay
`hoursWorked × rate`, half-day pays `rate × (dailyWorkingHours / 2)`
ignoring `hoursWorked`, anything else pays 0. -/
def computePayBulkV1 (w : AWorker) (status : AttStatus) (hoursWorked : ℚ) : ℚ :=
  if status = .present ∨ status = .holiday then hoursWorked * effectiveRateV1 w
  else if status = .halfDay then effectiveRateV1 w * (w.dailyWorkingHours / 2)
  else 0

/-- Pay computation of the later `POST /entries/bulk`: present, holiday AND
half-day all pay `(hoursWorked || 0) × rate`, anything else pays 0. -/
def computePayBulkV2 (w : AWorker) (status : AttStatus) (hoursWorked : ℚ) : ℚ :=
  if status = .present ∨ status = .holiday ∨ status = .halfDay then
    jsOr hoursWorked 0 * effectiveRateV2 w
  else 0

/-- C8 (amended): only the earlier bulk variant stores exactly
`0.5 × standardDailyHours × hourlyRate` for a half-day, independent of the
supplied `hoursWorked`; the later variant treats half-day like present and
stores `hoursWorked × rate`.  Absent pays 0 in both. -/
theorem attendance_pay_spec (w : AWorker) (h : ℚ) :
    computePayBulkV1 w .halfDay h = 0.5 * w.dailyWorkingHours * effectiveRateV1 w ∧
    computePayBulkV1 w .present h = h * effectiveRateV1 w ∧
    computePayBulkV1 w .holiday h = h * effectiveRateV1 w ∧
    computePayBulkV1 w .absent h = 0 ∧
    computePayBulkV2 w .halfDay h = h * effectiveRateV2 w ∧
    computePayBulkV2 w .absent h = 0 := by
  refine ⟨?_, ?_, ?_, ?_, ?_, ?_⟩ <;>
    simp [computePayBulkV1, computePayBulkV2, jsOr_zero] <;> ring

/-- Worker with hourly rate 100 and an 8-hour standard day. -/
def halfDayWorker : AWorker := ⟨100, 0, 8⟩

/-- C8 counterexample: in the later bulk variant, a half-day upsert with
`hoursWorked = 2` for a rate-100, 8-hour worker stores 200, not the
claimed `0.5 × 8 × 100 = 400`; the stored pay depends on `hoursWorked`. -/
theorem halfday_pay_cex :
    computePayBulkV2 halfDayWorker .halfDay 2 = 200 ∧
    (0.5 : ℚ) * halfDayWorker.dailyWorkingHours * halfDayWorker.hourlyRate = 400 ∧
    computePayBulkV2 halfDayWorker .halfDay 2 ≠
      0.5 * halfDayWorker.dailyWorkingHours * halfDayWorker.hourlyRate ∧
    computePayBulkV2 halfDayWorker .halfDay 2 ≠ computePayBulkV2 halfDayWorker .halfDay 3 := by
  refine ⟨?_, ?_, ?_, ?_⟩ <;>
    norm_num [computePayBulkV2, effectiveRateV2, jsOr, halfDayWorker]

/-! Section: Bonus draft computation (`src/routes/bonus.js`,
`POST /bonus/calculate-date-range`, persisting variant)

The route gathers attendance per active worker, takes the minimum absent
count as threshold, computes each worker's payload carrying forward
`extraBonus` / `employeeDeposit` from the existing record for the same
(worker, periodStart, periodEnd), and upserts keyed on (year, worker).
Periods are opaque day codes; `entries w` is the list of DailyEntry
statuses of worker `w` inside the period. -/

/-- Worker fields used by the bonus routes. -/
structure BWorker where
  id : ℕ
  hourlyRate : ℚ
  advanceBalance : ℚ
  isActive : Bool
deriving DecidableEq, Repr

/-- Bonus document (fields used by the routes; `_id`, dates-as-dates and
notes omitted). -/
structure BonusRec where
  year : ℤ
  worker : ℕ
  periodStart : ℕ
  periodEnd : ℕ
  hourlyRate : ℚ
  baseBonusAmount : ℚ
  totalDaysWorked : ℕ
  totalDaysAbsent : ℕ
  absentPenaltyPerDay : ℚ
  totalPenalty : ℚ
  extraBonus : ℚ
  employeeDeposit : ℚ
  finalBonusAmount : ℚ
  amountToGiveEmployee : ℚ
  currentAdvanceBalance : ℚ
  advanceDeduction : ℚ
  isPaid : Bool
  amountPaid : ℚ
  paidDate : Option ℕ
deriving DecidableEq, Repr

/-- The in-memory `bonusPayload` object the route builds per worker. -/
structure BonusPayload where
  year : ℤ
  worker : ℕ
  periodStart : ℕ
  periodEnd : ℕ
  hourlyRate : ℚ
  baseBonusAmount : ℚ
  totalDaysWorked : ℕ
  totalDaysAbsent : ℕ
  absentPenaltyPerDay : ℚ
  totalPenalty : ℚ
  extraBonus : ℚ
  employeeDeposit : ℚ
  finalBonusAmount : ℚ
  amountToGiveEmployee : ℚ
  currentAdvanceBalance : ℚ
deriving DecidableEq, Repr, Inhabited

/-- The `entries.filter(e => e.status === 'present' || e.status === 'holiday').length`. -/
def daysWorked (entries : List AttStatus) : ℕ :=
  (entries.filter fun e => e == .present || e == .holiday).length

/-- The `entries.filter(e => e.status === 'absent').length`. -/
def daysAbsent (entries : List AttStatus) : ℕ :=
  (entries.filter fun e => e == .absent).length

/-- Filter of `Bonus.findOne({worker, periodStart, periodEnd})`. -/
def keyMatch (r : BonusRec) (w pS pE : ℕ) : Bool :=
  r.worker == w && r.periodStart == pS && r.periodEnd == pE

/-- The `Bonus.findOne({worker, periodStart, periodEnd})`. -/
def bonusKeyFind (store : List BonusRec) (w pS pE : ℕ) : Option BonusRec :=
  store.find? (fun r => keyMatch r w pS pE)

/-- The `existingBonus?.field || 0` for a numeric field read off the
looked-up record. -/
def carriedOf (f : BonusRec → ℚ) (store : List BonusRec) (w pS pE : ℕ) : ℚ :=
  match bonusKeyFind store w pS pE with
  | some r => f r
  | none => 0

/-- The `existingBonus?.extraBonus || 0`. -/
def carriedExtra (store : List BonusRec) (w pS pE : ℕ) : ℚ :=
  carriedOf (fun r => jsOr r.extraBonus 0) store w pS pE

/-- The `existingBonus?.employeeDeposit || 0`. -/
def carriedDeposit (store : List BonusRec) (w pS pE : ℕ) : ℚ :=
  carriedOf (fun r => jsOr r.employeeDeposit 0) store w pS pE

/-- The per-worker bonus payload as a function of the carried-forward
adjustments: base = 30 × 8 × hourlyRate, extra absents above the minimum
threshold are charged `deductionPerAbsentDay` each, gross
`finalBonusAmount = max(0, base − penalty + extraBonus)`, net
`amountToGiveEmployee = max(0, gross − employeeDeposit)`. -/
def mkPayloadCore (ded : ℚ) (eY : ℤ) (pS pE minAbsent : ℕ) (w : BWorker)
    (worked absent : ℕ) (extraBonus employeeDeposit : ℚ) : BonusPayload :=
  let baseBonusAmount := 30 * 8 * jsOr w.hourlyRate 0
  let extraAbsents : ℤ := max 0 ((absent : ℤ) - (minAbsent : ℤ))
  let absentPenalty := (extraAbsents : ℚ) * ded
  let finalBonusAmount := max 0 (baseBonusAmount - absentPenalty + extraBonus)
  let amountToGiveEmployee := max 0 (finalBonusAmount - employeeDeposit)
  { year := eY
    worker := w.id
    periodStart := pS
    periodEnd := pE
    hourlyRate := w.hourlyRate
    baseBonusAmount := baseBonusAmount
    totalDaysWorked := worked
    totalDaysAbsent := absent
    absentPenaltyPerDay := ded
    totalPenalty := absentPenalty
    extraBonus := extraBonus
    employeeDeposit := employeeDeposit
    finalBonusAmount := finalBonusAmount
    amountToGiveEmployee := amountToGiveEmployee
    currentAdvanceBalance := w.advanceBalance }

/-- Payload for one worker, reading the carried adjustments from the store. -/
def mkPayload (ded : ℚ) (eY : ℤ) (pS pE minAbsent : ℕ) (store : List BonusRec)
    (w : BWorker) (worked absent : ℕ) : BonusPayload :=
  mkPayloadCore ded eY pS pE minAbsent w worked absent
    (carriedExtra store w.id pS pE) (carriedDeposit store w.id pS pE)

/-- Document inserted on an upsert miss: payload fields plus schema
defaults for the rest. -/
def recOfPayload (p : BonusPayload) : BonusRec :=
  { year := p.year
    worker := p.worker
    periodStart := p.periodStart
    periodEnd := p.periodEnd
    hourlyRate := p.hourlyRate
    baseBonusAmount := p.baseBonusAmount
    totalDaysWorked := p.totalDaysWorked
    totalDaysAbsent := p.totalDaysAbsent
    absentPenaltyPerDay := p.absentPenaltyPerDay
    totalPenalty := p.totalPenalty
    extraBonus := p.extraBonus
    employeeDeposit := p.employeeDeposit
    finalBonusAmount := p.finalBonusAmount
    amountToGiveEmployee := p.amountToGiveEmployee
    currentAdvanceBalance := p.currentAdvanceBalance
    advanceDeduction := 0
    isPaid := false
    amountPaid := 0
    paidDate := none }

/-- The `findOneAndUpdate` on an existing document: `$set` of the payload
fields, other fields untouched. -/
def mergePayload (p : BonusPayload) (r : BonusRec) : BonusRec :=
  { r with
    year := p.year
    worker := p.worker
    periodStart := p.periodStart
    periodEnd := p.periodEnd
    hourlyRate := p.hourlyRate
    baseBonusAmount := p.baseBonusAmount
    totalDaysWorked := p.totalDaysWorked
    totalDaysAbsent := p.totalDaysAbsent
    absentPenaltyPerDay := p.absentPenaltyPerDay
    totalPenalty := p.totalPenalty
    extraBonus := p.extraBonus
    employeeDeposit := p.employeeDeposit
    finalBonusAmount := p.finalBonusAmount
    amountToGiveEmployee := p.amountToGiveEmployee
    currentAdvanceBalance := p.currentAdvanceBalance }

/-- The `Bonus.findOneAndUpdate({year, worker}, bonusPayload, {upsert, new})`. -/
def upsertYearWorker (eY : ℤ) (p : BonusPayload) : List BonusRec → List BonusRec
  | [] => [recOfPayload p]
  | r :: rest =>
      if r.year == eY && r.worker == p.worker then mergePayload p r :: rest
      else r :: upsertYearWorker eY p rest

/-- One iteration of the per-worker loop: compute the payload against the
current store, emit it, and upsert it. -/
def calcStep (ded : ℚ) (eY : ℤ) (pS pE minAbsent : ℕ)
    (acc : List BonusPayload × List BonusRec) (t : BWorker × ℕ × ℕ) :
    List BonusPayload × List BonusRec :=
  let p := mkPayload ded eY pS pE minAbsent acc.2 t.1 t.2.1 t.2.2
  (acc.1 ++ [p], upsertYearWorker eY p acc.2)

/-- STEP 1 of the route: attendance data for all active workers. -/
def activeWorkerData (allWorkers : List BWorker) (entries : ℕ → List AttStatus) :
    List (BWorker × ℕ × ℕ) :=
  (allWorkers.filter fun w => w.isActive).map
    fun w => (w, daysWorked (entries w.id), daysAbsent (entries w.id))

/-- STEP 2: `minAbsent = workerData.length > 0 ? Math.min(...absents) : 0`. -/
def minAbsentOf (allWorkers : List BWorker) (entries : ℕ → List AttStatus) : ℕ :=
  (((activeWorkerData allWorkers entries).map fun t => t.2.2).min?).getD 0

/-- The whole `POST /bonus/calculate-date-range` computation (persisting
variant): returns the emitted per-worker payloads and the updated store. -/
def calculateDateRange (ded : ℚ) (eY : ℤ) (pS pE : ℕ)
    (allWorkers : List BWorker) (entries : ℕ → List AttStatus)
    (store : List BonusRec) : List BonusPayload × List BonusRec :=
  (activeWorkerData allWorkers entries).foldl
    (calcStep ded eY pS pE (minAbsentOf allWorkers entries)) ([], store)

theorem bonusKeyFind_upsert_ne (eY : ℤ) (p : BonusPayload) (store : List BonusRec)
    (w pS pE : ℕ) (hw : p.worker ≠ w) :
    bonusKeyFind (upsertYearWorker eY p store) w pS pE = bonusKeyFind store w pS pE := by
  induction store with
  | nil =>
      have hk : keyMatch (recOfPayload p) w pS pE = false := by
        simp [keyMatch, recOfPayload, hw]
      simp [upsertYearWorker, bonusKeyFind, hk]
  | cons r rest ih =>
      by_cases hr : (r.year == eY && r.worker == p.worker) = true
      · have hrw : r.worker = p.worker := by
          simp only [Bool.and_eq_true, beq_iff_eq] at hr
          exact hr.2
        have h1 : keyMatch (mergePayload p r) w pS pE = false := by
          simp [keyMatch, mergePayload, hw]
        have h2 : keyMatch r w pS pE = false := by
          simp [keyMatch, hrw, hw]
        simp [upsertYearWorker, hr, bonusKeyFind, h1, h2]
      · by_cases hk : keyMatch r w pS pE = true
        · simp [upsertYearWorker, hr, bonusKeyFind, hk]
        · have hk' : keyMatch r w pS pE = false := by simpa using hk
          simp only [upsertYearWorker, if_neg hr]
          simp only [bonusKeyFind] at ih ⊢
          rw [List.find?_cons_of_neg _ (by simp [hk']),
            List.find?_cons_of_neg _ (by simp [hk'])]
          exact ih

theorem carriedOf_upsert_ne (f : BonusRec → ℚ) (eY : ℤ) (p : BonusPayload)
    (store : List BonusRec) (w pS pE : ℕ) (hw : p.worker ≠ w) :
    carriedOf f (upsertYearWorker eY p store) w pS pE = carriedOf f store w pS pE := by
  unfold carriedOf
  rw [bonusKeyFind_upsert_ne eY p store w pS pE hw]

theorem carriedOf_upsert_eq (f : BonusRec → ℚ) (eY : ℤ) (p : BonusPayload)
    (store : List BonusRec) (pS pE : ℕ)
    (hpS : p.periodStart = pS) (hpE : p.periodEnd = pE)
    (hstable : ∀ r, f (mergePayload p r) = f (recOfPayload p))
    (hcar : carriedOf f store p.worker pS pE = f (recOfPayload p)) :
    carriedOf f (upsertYearWorker eY p store) p.worker pS pE = f (recOfPayload p) := by
  induction store with
  | nil =>
      have hk : keyMatch (recOfPayload p) p.worker pS pE = true := by
        simp [keyMatch, recOfPayload, hpS, hpE]
      simp [upsertYearWorker, carriedOf, bonusKeyFind, hk]
  | cons r rest ih =>
      by_cases hr : (r.year == eY && r.worker == p.worker) = true
      · have hk : keyMatch (mergePayload p r) p.worker pS pE = true := by
          simp [keyMatch, mergePayload, hpS, hpE]
        simp [upsertYearWorker, hr, carriedOf, bonusKeyFind, hk, hstable r]
      · by_cases hk : keyMatch r p.worker pS pE = true
        · have hhead : carriedOf f (r :: rest) p.worker pS pE = f r := by
            simp [carriedOf, bonusKeyFind, hk]
          simp only [upsertYearWorker, if_neg hr]
          have : carriedOf f (r :: upsertYearWorker eY p rest) p.worker pS pE = f r := by
            simp [carriedOf, bonusKeyFind, hk]
          rw [this, ← hhead, hcar]
        · have hk' : keyMatch r p.worker pS pE = false := by simpa using hk
          have htail : carriedOf f (r :: rest) p.worker pS pE =
              carriedOf f rest p.worker pS pE := by
            simp [carriedOf, bonusKeyFind, hk']
          simp only [upsertYearWorker, if_neg hr]
          have hskip : carriedOf f (r :: upsertYearWorker eY p rest) p.worker pS pE =
              carriedOf f (upsertYearWorker eY p rest) p.worker pS pE := by
            simp [carriedOf, bonusKeyFind, hk']
          rw [hskip]
          exact ih (htail ▸ hcar)

/-- One loop iteration preserves every worker's carried-forward
`extraBonus` and `employeeDeposit`. -/
theorem carried_upsert_payload (ded : ℚ) (eY : ℤ) (pS pE minAbsent : ℕ)
    (store : List BonusRec) (w : BWorker) (worked absent : ℕ) (wq : ℕ) :
    carriedExtra (upsertYearWorker eY
        (mkPayload ded eY pS pE minAbsent store w worked absent) store) wq pS pE
      = carriedExtra store wq pS pE ∧
    carriedDeposit (upsertYearWorker eY
        (mkPayload ded eY pS pE minAbsent store w worked absent) store) wq pS pE
      = carriedDeposit store wq pS pE := by
  set p := mkPayload ded eY pS pE minAbsent store w worked absent with hp
  have hpw : p.worker = w.id := rfl
  have hpS : p.periodStart = pS := rfl
  have hpE : p.periodEnd = pE := rfl
  have hex : jsOr (recOfPayload p).extraBonus 0 = carriedExtra store w.id pS pE := by
    rw [jsOr_zero]
    rfl
  have hdep : jsOr (recOfPayload p).employeeDeposit 0 =
      carriedDeposit store w.id pS pE := by
    rw [jsOr_zero]
    rfl
  by_cases hq : p.worker = wq
  · subst hq
    constructor
    · show carriedOf (fun r => jsOr r.extraBonus 0) _ p.worker pS pE = _
      rw [carriedOf_upsert_eq _ eY p store pS pE hpS hpE
        (by intro r; simp [mergePayload, recOfPayload])
        (by rw [hex]; rw [hpw]; rfl)]
      rw [hex, hpw]
    · show carriedOf (fun r => jsOr r.employeeDeposit 0) _ p.worker pS pE = _
      rw [carriedOf_upsert_eq _ eY p store pS pE hpS hpE
        (by intro r; simp [mergePayload, recOfPayload])
        (by rw [hdep]; rw [hpw]; rfl)]
      rw [hdep, hpw]
  · exact ⟨carriedOf_upsert_ne _ eY p store wq pS pE hq,
      carriedOf_upsert_ne _ eY p store wq pS pE hq⟩

/-- Through the whole per-worker loop every carried-forward adjustment is
invariant: recomputation never resets manual adjustments. -/
theorem foldl_calcStep_carried (ded : ℚ) (eY : ℤ) (pS pE minAbsent : ℕ)
    (l : List (BWorker × ℕ × ℕ)) :
    ∀ (acc : List BonusPayload) (store : List BonusRec) (wq : ℕ),
      carriedExtra ((l.foldl (calcStep ded eY pS pE minAbsent) (acc, store)).2) wq pS pE
        = carriedExtra store wq pS pE ∧
      carriedDeposit ((l.foldl (calcStep ded eY pS pE minAbsent) (acc, store)).2) wq pS pE
        = carriedDeposit store wq pS pE := by
  induction l with
  | nil => intro acc store wq; exact ⟨rfl, rfl⟩
  | cons t rest ih =>
      intro acc store wq
      have hstep := carried_upsert_payload ded eY pS pE minAbsent store t.1 t.2.1 t.2.2 wq
      have htail := ih (acc ++ [mkPayload ded eY pS pE minAbsent store t.1 t.2.1 t.2.2])
        (upsertYearWorker eY (mkPayload ded eY pS pE minAbsent store t.1 t.2.1 t.2.2) store) wq
      constructor
      · rw [List.foldl_cons]
        show carriedExtra ((rest.foldl _ (calcStep ded eY pS pE minAbsent (acc, store) t)).2) wq pS pE = _
        rw [show calcStep ded eY pS pE minAbsent (acc, store) t =
          (acc ++ [mkPayload ded eY pS pE minAbsent store t.1 t.2.1 t.2.2],
            upsertYearWorker eY (mkPayload ded eY pS pE minAbsent store t.1 t.2.1 t.2.2) store) from rfl]
        rw [htail.1, hstep.1]
      · rw [List.foldl_cons]
        show carriedDeposit ((rest.foldl _ (calcStep ded eY pS pE minAbsent (acc, store) t)).2) wq pS pE = _
        rw [show calcStep ded eY pS pE minAbsent (acc, store) t =
          (acc ++ [mkPayload ded eY pS pE minAbsent store t.1 t.2.1 t.2.2],
            upsertYearWorker eY (mkPayload ded eY pS pE minAbsent store t.1 t.2.1 t.2.2) store) from rfl]
        rw [htail.2, hstep.2]

/-- The emitted payloads of the loop depend on the store only through the
carried-forward adjustments read against the store as it was when the
loop started. -/
theorem foldl_calcStep_payloads (ded : ℚ) (eY : ℤ) (pS pE minAbsent : ℕ)
    (l : List (BWorker × ℕ × ℕ)) :
    ∀ (acc : List BonusPayload) (store : List BonusRec),
      (l.foldl (calcStep ded eY pS pE minAbsent) (acc, store)).1 =
        acc ++ l.map (fun t => mkPayload ded eY pS pE minAbsent store t.1 t.2.1 t.2.2) := by
  induction l with
  | nil => intro acc store; simp
  | cons t rest ih =>
      intro acc store
      set p0 := mkPayload ded eY pS pE minAbsent store t.1 t.2.1 t.2.2 with hp0
      set store1 := upsertYearWorker eY p0 store with hstore1
      have hpmap : ∀ u ∈ rest,
          mkPayload ded eY pS pE minAbsent store1 u.1 u.2.1 u.2.2 =
            mkPayload ded eY pS pE minAbsent store u.1 u.2.1 u.2.2 := by
        intro u hu
        have hc := carried_upsert_payload ded eY pS pE minAbsent store t.1 t.2.1 t.2.2 u.1.id
        unfold mkPayload
        rw [← hp0] at hc
        rw [hc.1, hc.2]
      rw [List.foldl_cons]
      rw [show calcStep ded eY pS pE minAbsent (acc, store) t = (acc ++ [p0], store1) from rfl]
      rw [ih (acc ++ [p0]) store1, List.map_cons, List.append_assoc, List.singleton_append]
      rw [List.map_congr_left hpmap]

/-- The route's per-worker output equals the closed-form payload computed
against the initial store. -/
theorem calculateDateRange_payloads (ded : ℚ) (eY : ℤ) (pS pE : ℕ)
    (allWorkers : List BWorker) (entries : ℕ → List AttStatus)
    (store : List BonusRec) :
    (calculateDateRange ded eY pS pE allWorkers entries store).1 =
      (activeWorkerData allWorkers entries).map (fun t =>
        mkPayloadCore ded eY pS pE (minAbsentOf allWorkers entries) t.1 t.2.1 t.2.2
          (carriedExtra store t.1.id pS pE) (carriedDeposit store t.1.id pS pE)) := by
  unfold calculateDateRange
  rw [foldl_calcStep_payloads]
  simp [mkPayload]

theorem carriedExtra_nil (w pS pE : ℕ) : carriedExtra [] w pS pE = 0 := rfl

theorem carriedDeposit_nil (w pS pE : ℕ) : carriedDeposit [] w pS pE = 0 := rfl

/-- Field-level reading of the per-worker payload (all definitional). -/
theorem mkPayloadCore_fields (ded : ℚ) (eY : ℤ) (pS pE minAbsent : ℕ)
    (w : BWorker) (worked absent : ℕ) (ex dep : ℚ) :
    (mkPayloadCore ded eY pS pE minAbsent w worked absent ex dep).worker = w.id ∧
    (mkPayloadCore ded eY pS pE minAbsent w worked absent ex dep).totalDaysAbsent = absent ∧
    (mkPayloadCore ded eY pS pE minAbsent w worked absent ex dep).baseBonusAmount =
      30 * 8 * jsOr w.hourlyRate 0 ∧
    (mkPayloadCore ded eY pS pE minAbsent w worked absent ex dep).totalPenalty =
      ((max 0 ((absent : ℤ) - (minAbsent : ℤ)) : ℤ) : ℚ) * ded ∧
    (mkPayloadCore ded eY pS pE minAbsent w worked absent ex dep).extraBonus = ex ∧
    (mkPayloadCore ded eY pS pE minAbsent w worked absent ex dep).employeeDeposit = dep ∧
    (mkPayloadCore ded eY pS pE minAbsent w worked absent ex dep).finalBonusAmount =
      max 0 (30 * 8 * jsOr w.hourlyRate 0
        - ((max 0 ((absent : ℤ) - (minAbsent : ℤ)) : ℤ) : ℚ) * ded + ex) ∧
    (mkPayloadCore ded eY pS pE minAbsent w worked absent ex dep).amountToGiveEmployee =
      max 0 (max 0 (30 * 8 * jsOr w.hourlyRate 0
        - ((max 0 ((absent : ℤ) - (minAbsent : ℤ)) : ℤ) : ℚ) * ded + ex) - dep) :=
  ⟨rfl, rfl, rfl, rfl, rfl, rfl, rfl, rfl⟩

/-- Scenario A active workers: X (id 1, hourly rate 100) and another
active worker (id 2). -/
def scenarioWorkers : List BWorker := [⟨1, 100, 0, true⟩, ⟨2, 60, 0, true⟩]

/-- Scenario A attendance in the period: X has two absent days, the other
worker none. -/
def scenarioEntries : ℕ → List AttStatus :=
  fun wid => if wid = 1 then [.absent, .absent] else []

theorem scenario_workerData :
    activeWorkerData scenarioWorkers scenarioEntries =
      [(⟨1, 100, 0, true⟩, 0, 2), (⟨2, 60, 0, true⟩, 0, 0)] := by
  decide

theorem scenario_minAbsent : minAbsentOf scenarioWorkers scenarioEntries = 0 := by
  rw [minAbsentOf, scenario_workerData]
  rfl

/-- C3: the date-range bonus draft computes, for every active worker, the
closed-form payload — base `30 × 8 × hourlyRate`, chargeable absences
`max(0, absent − minAbsent)` at `deductionPerAbsentDay` each, gross
`max(0, base − penalty + extra)`, net `max(0, gross − deposit)` — and on
Scenario A (rate 100, 2 absent days, minAbsent 0, deduction 50, no
adjustments) yields baseBonus 24000, penalty 100, netBonus 23900. -/
theorem bonus_draft_formula_and_scenarioA :
    (∀ (ded : ℚ) (eY : ℤ) (pS pE : ℕ) (allWorkers : List BWorker)
        (entries : ℕ → List AttStatus) (store : List BonusRec),
      (calculateDateRange ded eY pS pE allWorkers entries store).1 =
        (activeWorkerData allWorkers entries).map (fun t =>
          mkPayloadCore ded eY pS pE (minAbsentOf allWorkers entries) t.1 t.2.1 t.2.2
            (carriedExtra store t.1.id pS pE) (carriedDeposit store t.1.id pS pE))) ∧
    minAbsentOf scenarioWorkers scenarioEntries = 0 ∧
    (calculateDateRange 50 2024 1 2 scenarioWorkers scenarioEntries []).1 =
      [mkPayloadCore 50 2024 1 2 0 ⟨1, 100, 0, true⟩ 0 2 0 0,
        mkPayloadCore 50 2024 1 2 0 ⟨2, 60, 0, true⟩ 0 0 0 0] ∧
    (mkPayloadCore 50 2024 1 2 0 ⟨1, 100, 0, true⟩ 0 2 0 0).baseBonusAmount = 24000 ∧
    (mkPayloadCore 50 2024 1 2 0 ⟨1, 100, 0, true⟩ 0 2 0 0).totalPenalty = 100 ∧
    (mkPayloadCore 50 2024 1 2 0 ⟨1, 100, 0, true⟩ 0 2 0 0).extraBonus = 0 ∧
    (mkPayloadCore 50 2024 1 2 0 ⟨1, 100, 0, true⟩ 0 2 0 0).employeeDeposit = 0 ∧
    (mkPayloadCore 50 2024 1 2 0 ⟨1, 100, 0, true⟩ 0 2 0 0).finalBonusAmount = 23900 ∧
    (mkPayloadCore 50 2024 1 2 0 ⟨1, 100, 0, true⟩ 0 2 0 0).amountToGiveEmployee = 23900 := by
  have hM : ((max 0 (((2 : ℕ) : ℤ) - ((0 : ℕ) : ℤ)) : ℤ) : ℚ) = 2 := by
    have h22 : ((2 : ℕ) : ℤ) - ((0 : ℕ) : ℤ) = 2 := by norm_num
    rw [h22, max_eq_right (by norm_num : (0 : ℤ) ≤ 2)]
    norm_num
  have hj : jsOr (BWorker.hourlyRate ⟨1, 100, 0, true⟩) 0 = 100 := by
    rw [jsOr_zero]
  have hbase : (mkPayloadCore 50 2024 1 2 0 ⟨1, 100, 0, true⟩ 0 2 0 0).baseBonusAmount
      = 24000 := by
    rw [(mkPayloadCore_fields 50 2024 1 2 0 ⟨1, 100, 0, true⟩ 0 2 0 0).2.2.1, hj]
    norm_num
  have hpen : (mkPayloadCore 50 2024 1 2 0 ⟨1, 100, 0, true⟩ 0 2 0 0).totalPenalty
      = 100 := by
    rw [(mkPayloadCore_fields 50 2024 1 2 0 ⟨1, 100, 0, true⟩ 0 2 0 0).2.2.2.1, hM]
    norm_num
  have hgross : max 0 (30 * 8 * jsOr (BWorker.hourlyRate ⟨1, 100, 0, true⟩) 0
      - ((max 0 (((2 : ℕ) : ℤ) - ((0 : ℕ) : ℤ)) : ℤ) : ℚ) * 50 + 0) = 23900 := by
    rw [hj, hM]
    rw [show (30 : ℚ) * 8 * 100 - 2 * 50 + 0 = 23900 by norm_num]
    exact max_eq_right (by norm_num)
  have hfin : (mkPayloadCore 50 2024 1 2 0 ⟨1, 100, 0, true⟩ 0 2 0 0).finalBonusAmount
      = 23900 := by
    rw [(mkPayloadCore_fields 50 2024 1 2 0 ⟨1, 100, 0, true⟩ 0 2 0 0).2.2.2.2.2.2.1]
    exact hgross
  have hnet : (mkPayloadCore 50 2024 1 2 0 ⟨1, 100, 0, true⟩ 0 2 0 0).amountToGiveEmployee
      = 23900 := by
    rw [(mkPayloadCore_fields 50 2024 1 2 0 ⟨1, 100, 0, true⟩ 0 2 0 0).2.2.2.2.2.2.2]
    rw [hgross]
    rw [show (23900 : ℚ) - 0 = 23900 by norm_num]
    exact max_eq_right (by norm_num)
  refine ⟨calculateDateRange_payloads, scenario_minAbsent, ?_, hbase, hpen, rfl, rfl,
    hfin, hnet⟩
  rw [calculateDateRange_payloads, scenario_workerData, scenario_minAbsent]
  simp [carriedExtra_nil, carriedDeposit_nil]

/-- C5: recomputation is idempotent — running the bonus-draft computation a
second time with unchanged inputs on the store the first run persisted
yields the same per-worker output. -/
theorem calculateDateRange_idempotent (ded : ℚ) (eY : ℤ) (pS pE : ℕ)
    (allWorkers : List BWorker) (entries : ℕ → List AttStatus)
    (store : List BonusRec) :
    (calculateDateRange ded eY pS pE allWorkers entries
        ((calculateDateRange ded eY pS pE allWorkers entries store).2)).1 =
      (calculateDateRange ded eY pS pE allWorkers entries store).1 := by
  rw [calculateDateRange_payloads, calculateDateRange_payloads]
  apply List.map_congr_left
  intro t ht
  have hc := foldl_calcStep_carried ded eY pS pE (minAbsentOf allWorkers entries)
    (activeWorkerData allWorkers entries) [] store t.1.id
  show mkPayloadCore ded eY pS pE (minAbsentOf allWorkers entries) t.1 t.2.1 t.2.2
      (carriedExtra ((calculateDateRange ded eY pS pE allWorkers entries store).2) t.1.id pS pE)
      (carriedDeposit ((calculateDateRange ded eY pS pE allWorkers entries store).2) t.1.id pS pE) = _
  unfold calculateDateRange
  rw [hc.1, hc.2]

/-! Section: Bonus adjustments (`POST /bonus/add-extra-bonus/:bonusId`,
`POST /bonus/add-employee-deposit/:bonusId`, valid-id paths) -/

/-- Error outcomes of the bonus adjustment routes. -/
inductive BonusOpError where
  | validationError
  | exceedsEntitlement
deriving DecidableEq, Repr

/-- The `add-extra-bonus` on the fetched document: rejects a non-positive
amount, else adds to `extraBonus` and recomputes gross and net. -/
def addExtraBonusDoc (extraAmount : ℚ) (b : BonusRec) : Except BonusOpError BonusRec :=
  if extraAmount ≤ 0 then .error .validationError
  else
    let newExtraBonus := jsOr b.extraBonus 0 + extraAmount
    let base := jsOr b.baseBonusAmount 0
    let penalty := jsOr b.totalPenalty 0
    let deposit := jsOr b.employeeDeposit 0
    let newFinalBonusAmount := max 0 (base - penalty + newExtraBonus)
    let newAmountToGiveEmployee := max 0 (newFinalBonusAmount - deposit)
    .ok { b with
      extraBonus := newExtraBonus
      finalBonusAmount := newFinalBonusAmount
      amountToGiveEmployee := newAmountToGiveEmployee }

/-- The `add-employee-deposit` on the fetched document: rejects a non-positive
amount, rejects `depositAmount > finalBonusAmount` (the computed gross),
else adds to `employeeDeposit` and recomputes the net amount. -/
def addEmployeeDepositDoc (depositAmount : ℚ) (b : BonusRec) : Except BonusOpError BonusRec :=
  if depositAmount ≤ 0 then .error .validationError
  else if depositAmount > b.finalBonusAmount then .error .exceedsEntitlement
  else
    let newEmployeeDeposit := jsOr b.employeeDeposit 0 + depositAmount
    .ok { b with
      employeeDeposit := newEmployeeDeposit
      amountToGiveEmployee := max 0 (b.finalBonusAmount - newEmployeeDeposit) }

theorem bonusKeyFind_append_first (pre post : List BonusRec) (r : BonusRec)
    (w pS pE : ℕ)
    (hpre : ∀ x ∈ pre, keyMatch x w pS pE = false)
    (hkey : keyMatch r w pS pE = true) :
    bonusKeyFind (pre ++ r :: post) w pS pE = some r := by
  induction pre with
  | nil =>
      show bonusKeyFind (r :: post) w pS pE = some r
      unfold bonusKeyFind
      exact List.find?_cons_of_pos _ (by simp [hkey])
  | cons x xs ih =>
      have hx := hpre x (List.mem_cons_self x xs)
      show bonusKeyFind (x :: (xs ++ r :: post)) w pS pE = some r
      unfold bonusKeyFind
      rw [List.find?_cons_of_neg _ (by simp [hx])]
      exact ih (fun y hy => hpre y (List.mem_cons_of_mem x hy))

/-- C4: updating the first record for (worker, period) through
`add-extra-bonus` with amount 500 and recomputing the draft for the same
worker and period reports `extraBonus ≥ 500` — the recompute carries the
adjustment forward instead of resetting it. -/
theorem recompute_preserves_extra_bonus
    (ded : ℚ) (eY : ℤ) (pS pE : ℕ) (allWorkers : List BWorker)
    (entries : ℕ → List AttStatus)
    (pre post : List BonusRec) (r r' : BonusRec) (w : ℕ)
    (hpre : ∀ x ∈ pre, keyMatch x w pS pE = false)
    (hkey : keyMatch r w pS pE = true)
    (hextra : 0 ≤ r.extraBonus)
    (hadd : addExtraBonusDoc 500 r = .ok r') :
    ∀ p ∈ (calculateDateRange ded eY pS pE allWorkers entries (pre ++ r' :: post)).1,
      p.worker = w → 500 ≤ p.extraBonus := by
  have h500 : ¬ (500 : ℚ) ≤ 0 := by norm_num
  have hr' : r' = { r with
      extraBonus := r.extraBonus + 500
      finalBonusAmount :=
        max 0 (r.baseBonusAmount - r.totalPenalty + (r.extraBonus + 500))
      amountToGiveEmployee :=
        max 0 (max 0 (r.baseBonusAmount - r.totalPenalty
          + (r.extraBonus + 500)) - r.employeeDeposit) } := by
    have h := hadd
    simp only [addExtraBonusDoc, if_neg h500, jsOr_zero, Except.ok.injEq] at h
    exact h.symm
  have hkey' : keyMatch r' w pS pE = true := by
    rw [hr']
    simpa [keyMatch] using hkey
  have hfind : bonusKeyFind (pre ++ r' :: post) w pS pE = some r' :=
    bonusKeyFind_append_first pre post r' w pS pE hpre hkey'
  have hcar : carriedExtra (pre ++ r' :: post) w pS pE = r.extraBonus + 500 := by
    unfold carriedExtra carriedOf
    rw [hfind]
    show jsOr r'.extraBonus 0 = r.extraBonus + 500
    rw [jsOr_zero, hr']
  intro p hp hpw
  rw [calculateDateRange_payloads] at hp
  obtain ⟨t, ht, hpt⟩ := List.mem_map.mp hp
  have hworker : t.1.id = w := by rw [← hpw, ← hpt]; rfl
  have hpx : p.extraBonus =
      carriedExtra (pre ++ r' :: post) t.1.id pS pE := by
    rw [← hpt]
    rfl
  rw [hpx, hworker, hcar]
  linarith

/-- Scenario A's saved bonus record: gross 23900, no adjustments yet. -/
def scenarioSavedBonus : BonusRec :=
  { year := 2024, worker := 1, periodStart := 1, periodEnd := 2, hourlyRate := 100,
    baseBonusAmount := 24000, totalDaysWorked := 0, totalDaysAbsent := 2,
    absentPenaltyPerDay := 50, totalPenalty := 100, extraBonus := 0,
    employeeDeposit := 0, finalBonusAmount := 23900, amountToGiveEmployee := 23900,
    currentAdvanceBalance := 0, advanceDeduction := 0, isPaid := false,
    amountPaid := 0, paidDate := none }

/-- The `scenarioSavedBonus` after `add-extra-bonus 500` (the route's output
verbatim). -/
def scenarioSavedBonusPlus500 : BonusRec :=
  { scenarioSavedBonus with
    extraBonus := jsOr scenarioSavedBonus.extraBonus 0 + 500
    finalBonusAmount := max 0 (jsOr scenarioSavedBonus.baseBonusAmount 0
      - jsOr scenarioSavedBonus.totalPenalty 0
      + (jsOr scenarioSavedBonus.extraBonus 0 + 500))
    amountToGiveEmployee := max 0 (max 0 (jsOr scenarioSavedBonus.baseBonusAmount 0
      - jsOr scenarioSavedBonus.totalPenalty 0
      + (jsOr scenarioSavedBonus.extraBonus 0 + 500))
      - jsOr scenarioSavedBonus.employeeDeposit 0) }

theorem recompute_preserves_extra_bonus_witness :
    500 ≤ (mkPayloadCore 50 2024 1 2 0 ⟨1, 100, 0, true⟩ 0 2
      (carriedExtra [scenarioSavedBonusPlus500] 1 1 2)
      (carriedDeposit [scenarioSavedBonusPlus500] 1 1 2)).extraBonus := by
  have hadd : addExtraBonusDoc 500 scenarioSavedBonus = .ok scenarioSavedBonusPlus500 := by
    unfold addExtraBonusDoc
    rw [if_neg (by norm_num : ¬ (500 : ℚ) ≤ 0)]
    rfl
  have h := recompute_preserves_extra_bonus 50 2024 1 2 scenarioWorkers scenarioEntries
    [] [] scenarioSavedBonus scenarioSavedBonusPlus500 1
    (by intro x hx; simp at hx) (by decide) (by norm_num [scenarioSavedBonus]) hadd
  apply h
  · rw [calculateDateRange_payloads, scenario_workerData, scenario_minAbsent]
    simp
  · rfl

/-- C7: `add-employee-deposit` with a positive amount is rejected with
ExceedsEntitlement exactly when the amount exceeds the record's computed
gross (`finalBonusAmount`), leaving the record unchanged; otherwise it adds
the amount to `employeeDeposit` and recomputes the net amount. In
particular, depositing 24000 against a gross of 23900 is rejected. -/
theorem addEmployeeDeposit_spec (b : BonusRec) (a : ℚ) :
    (0 < a → b.finalBonusAmount < a →
      addEmployeeDepositDoc a b = .error .exceedsEntitlement) ∧
    (0 < a → a ≤ b.finalBonusAmount →
      addEmployeeDepositDoc a b = .ok { b with
        employeeDeposit := jsOr b.employeeDeposit 0 + a
        amountToGiveEmployee :=
          max 0 (b.finalBonusAmount - (jsOr b.employeeDeposit 0 + a)) }) ∧
    addEmployeeDepositDoc 24000 scenarioSavedBonus = .error .exceedsEntitlement := by
  refine ⟨?_, ?_, ?_⟩
  · intro hpos hgt
    simp [addEmployeeDepositDoc, not_le.mpr hpos, hgt]
  · intro hpos hle
    simp [addEmployeeDepositDoc, not_le.mpr hpos, not_lt.mpr hle]
  · have hgt : scenarioSavedBonus.finalBonusAmount < 24000 := by
      norm_num [scenarioSavedBonus]
    simp [addEmployeeDepositDoc, hgt]

theorem addEmployeeDeposit_spec_witness :
    addEmployeeDepositDoc 24000 scenarioSavedBonus = .error .exceedsEntitlement :=
  (addEmployeeDeposit_spec scenarioSavedBonus 24000).1 (by norm_num)
    (by norm_num [scenarioSavedBonus])

/-! Section: Mark bonus paid (`POST /bonus/pay/:id`)

The repository holds two iterations of this route: the earlier one posts a
repayment to the Advance ledger when the bonus carries an
`advanceDeduction`; the later one explicitly does not touch the ledger. -/

/-- State for paying one bonus: the bonus document, its worker, and the
worker's Advance log. -/
structure PayState where
  worker : LWorker
  ledger : List AdvanceTx
  bonus : BonusRec
deriving DecidableEq, Repr

/-- Earlier `POST /bonus/pay/:id`: when `advanceDeduction > 0` and the bonus
is not yet paid, posts a repayment of `advanceDeduction` with the new
balance clamped at 0, then marks the bonus paid with
`amountPaid = amountPaid || finalBonusAmount`. -/
def payBonusV1 (amountPaid : Option ℚ) (now : ℕ) (st : PayState) : PayState :=
  let b := st.bonus
  let st1 :=
    if b.advanceDeduction > 0 ∧ b.isPaid = false then
      let newBalance := max 0 (st.worker.advanceBalance - b.advanceDeduction)
      { st with
        worker := { st.worker with
          advanceBalance := newBalance
          totalAdvanceRepaid := st.worker.totalAdvanceRepaid + b.advanceDeduction }
        ledger := st.ledger ++ [⟨.repayment, b.advanceDeduction, newBalance⟩] }
    else st
  { st1 with bonus := { st1.bonus with
      amountPaid := jsOr (amountPaid.getD 0) b.finalBonusAmount
      isPaid := true
      paidDate := some now } }

/-- Later `POST /bonus/pay/:id`: does not adjust the worker's advance
balance or the Advance log; only sets
`amountPaid = amountPaid || amountToGiveEmployee`, `isPaid`, `paidDate`. -/
def payBonusV2 (amountPaid : Option ℚ) (now : ℕ) (st : PayState) : PayState :=
  { st with bonus := { st.bonus with
      amountPaid := jsOr (amountPaid.getD 0) st.bonus.amountToGiveEmployee
      isPaid := true
      paidDate := some now } }

/-- C9 (amended): the later `pay` variant only sets `isPaid`, `paidDate`
and `amountPaid` (defaulting to the net amount) and leaves the worker's
ledger history and cached balance untouched. -/
theorem markPaid_frame (amountPaid : Option ℚ) (now : ℕ) (st : PayState) :
    (payBonusV2 amountPaid now st).worker = st.worker ∧
    (payBonusV2 amountPaid now st).ledger = st.ledger ∧
    (payBonusV2 amountPaid now st).bonus = { st.bonus with
      amountPaid := jsOr (amountPaid.getD 0) st.bonus.amountToGiveEmployee
      isPaid := true
      paidDate := some now } ∧
    (payBonusV2 none now st).bonus.amountPaid = st.bonus.amountToGiveEmployee := by
  refine ⟨rfl, rfl, rfl, ?_⟩
  show jsOr ((none : Option ℚ).getD 0) st.bonus.amountToGiveEmployee = _
  simp [jsOr]

/-- Worker with balance 500 and an unpaid bonus carrying a 100-unit
advance deduction. -/
def payCexState : PayState :=
  { worker := ⟨500, 500, 0⟩
    ledger := [⟨.advance, 500, 500⟩]
    bonus := { scenarioSavedBonus with advanceDeduction := 100 } }

/-- C9 counterexample: the earlier `pay` variant, on an unpaid bonus with
`advanceDeduction = 100`, appends a ledger transaction and moves the
worker's balance from 500 to 400 — `markPaid` is not ledger-neutral in
that variant. -/
theorem markPaid_v1_mutates_ledger_cex :
    (payBonusV1 none 0 payCexState).ledger.length = 2 ∧
    payCexState.ledger.length = 1 ∧
    (payBonusV1 none 0 payCexState).worker.advanceBalance = 400 ∧
    payCexState.worker.advanceBalance = 500 := by
  have hmax : max (0 : ℚ) (500 - 100) = 400 := by
    rw [show (500 : ℚ) - 100 = 400 by norm_num]
    exact max_eq_right (by norm_num)
  have hcond : payCexState.bonus.advanceDeduction > 0 ∧ payCexState.bonus.isPaid = false :=
    ⟨by norm_num [payCexState, scenarioSavedBonus], rfl⟩
  refine ⟨?_, rfl, ?_, rfl⟩
  · show (payBonusV1 none 0 payCexState).ledger.length = 2
    simp only [payBonusV1]
    rw [if_pos hcond]
    rfl
  · show (payBonusV1 none 0 payCexState).worker.advanceBalance = 400
    simp only [payBonusV1]
    rw [if_pos hcond]
    show max (0 : ℚ) (500 - 100) = 400
    exact hmax

/-! Section: Settlement history deletion (`DELETE /bonus/history/:id`) -/

/-- Worker document fields used by the multi-worker routes. -/
structure SWorker where
  id : ℕ
  name : String
  advanceBalance : ℚ
  totalAdvanceTaken : ℚ
  totalAdvanceRepaid : ℚ
deriving DecidableEq, Repr

/-- An Advance document tagged with its worker. -/
structure SAdvance where
  worker : ℕ
  type : AdvanceType
  amount : ℚ
  balanceAfter : ℚ
deriving DecidableEq, Repr

/-- One per-worker snapshot inside a BonusHistory record. -/
structure BonusHistSnapshot where
  worker : ℕ
  deposit : ℚ
  extraBonus : ℚ
  finalBonusAmount : ℚ
  amountToGiveEmployee : ℚ
  advanceBalanceAtSave : ℚ
deriving DecidableEq, Repr

/-- A BonusHistory document. -/
structure BonusHistoryRec where
  id : ℕ
  year : ℤ
  periodStart : ℕ
  periodEnd : ℕ
  records : List BonusHistSnapshot
  totalDeposit : ℚ
  totalFinalAmount : ℚ
  isSaved : Bool
deriving DecidableEq, Repr

/-- The collections the bonus-history routes can reach. -/
structure HistDB where
  workers : List SWorker
  advances : List SAdvance
  bonusHistories : List BonusHistoryRec
deriving DecidableEq, Repr

/-- The `BonusHistory.findById`. -/
def findBonusHistory (db : HistDB) (hid : ℕ) : Option BonusHistoryRec :=
  db.bonusHistories.find? (fun h => h.id == hid)

/-- The `DELETE /bonus/history/:id`: 404 when the record is absent; otherwise
`findByIdAndDelete` removes the snapshot document and nothing else — the
route explicitly does not revert advance transactions. -/
def deleteBonusHistory (db : HistDB) (hid : ℕ) : Option HistDB :=
  match findBonusHistory db hid with
  | none => none
  | some _ => some { db with
      bonusHistories := db.bonusHistories.eraseP (fun h => h.id == hid) }

/-- Cached balance of a worker in the store. -/
def workerBalanceIn (db : HistDB) (wid : ℕ) : Option ℚ :=
  (db.workers.find? (fun w => w.id == wid)).map (fun w => w.advanceBalance)

/-- Number of ledger transactions of a worker in the store. -/
def ledgerCountIn (db : HistDB) (wid : ℕ) : ℕ :=
  (db.advances.filter (fun a => a.worker == wid)).length

/-- C10: deleting a settlement-history snapshot removes exactly that record
from the history list and never reverses ledger effects: every worker's
cached balance and transaction count are unchanged. -/
theorem deleteHistory_frame (db : HistDB) (hid : ℕ) (h : BonusHistoryRec)
    (hfind : findBonusHistory db hid = some h) :
    deleteBonusHistory db hid = some { db with
      bonusHistories := db.bonusHistories.eraseP (fun x => x.id == hid) } ∧
    ({ db with
      bonusHistories := db.bonusHistories.eraseP (fun x => x.id == hid) } : HistDB).workers
      = db.workers ∧
    ({ db with
      bonusHistories := db.bonusHistories.eraseP (fun x => x.id == hid) } : HistDB).advances
      = db.advances ∧
    (∀ wid, workerBalanceIn { db with
      bonusHistories := db.bonusHistories.eraseP (fun x => x.id == hid) } wid
        = workerBalanceIn db wid) ∧
    (∀ wid, ledgerCountIn { db with
      bonusHistories := db.bonusHistories.eraseP (fun x => x.id == hid) } wid
        = ledgerCountIn db wid) ∧
    (db.bonusHistories.eraseP (fun x => x.id == hid)).length + 1
      = db.bonusHistories.length := by
  have hfind' : db.bonusHistories.find? (fun x => x.id == hid) = some h := hfind
  refine ⟨?_, rfl, rfl, fun _ => rfl, fun _ => rfl, ?_⟩
  · unfold deleteBonusHistory
    rw [hfind]
  · have hmem := List.mem_of_find?_eq_some hfind'
    have hpa := List.find?_some hfind'
    exact @List.length_eraseP_add_one _ (fun x => x.id == hid) db.bonusHistories h
      hmem hpa

/-- Scenario E store: one worker whose 2000-unit deposit was posted by a
finalized settlement, and the history snapshot that caused it. -/
def histCexDb : HistDB :=
  { workers := [⟨1, "A", 0, 2000, 2000⟩]
    advances := [⟨1, .deposit, 2000, 0⟩]
    bonusHistories := [⟨7, 2024, 1, 2, [⟨1, 2000, 0, 23900, 21900, 2000⟩],
      2000, 21900, true⟩] }

theorem deleteHistory_frame_witness :
    deleteBonusHistory histCexDb 7 = some { histCexDb with
      bonusHistories := histCexDb.bonusHistories.eraseP (fun x => x.id == 7) } ∧
    workerBalanceIn { histCexDb with
      bonusHistories := histCexDb.bonusHistories.eraseP (fun x => x.id == 7) } 1
      = workerBalanceIn histCexDb 1 ∧
    ledgerCountIn { histCexDb with
      bonusHistories := histCexDb.bonusHistories.eraseP (fun x => x.id == 7) } 1
      = ledgerCountIn histCexDb 1 ∧
    (histCexDb.bonusHistories.eraseP (fun x => x.id == 7)).length + 1
      = histCexDb.bonusHistories.length := by
  have H := deleteHistory_frame histCexDb 7
    ⟨7, 2024, 1, 2, [⟨1, 2000, 0, 23900, 21900, 2000⟩], 2000, 21900, true⟩ rfl
  exact ⟨H.1, H.2.2.2.1 1, H.2.2.2.2.1 1, H.2.2.2.2.2⟩

/-! Section: Salary settlement finalize (`POST /reports/save-salary-history`)

The route walks the submitted records worker by worker; a deposit is
validated against the worker's current balance and, on failure, the route
returns a 400 naming the worker — transactions already posted for earlier
workers are not rolled back, and the history snapshot is not saved. -/

/-- One submitted per-worker settlement record. -/
structure SalaryRecordInput where
  workerId : ℕ
  deposit : ℚ
  newAdvance : ℚ
  totalHoursWorked : ℚ
  totalPay : ℚ
  payout : ℚ
  finalAmount : ℚ
deriving DecidableEq, Repr

/-- The per-worker snapshot pushed into `processedRecords`. -/
structure SalarySnapshot where
  worker : ℕ
  workerName : String
  totalHoursWorked : ℚ
  totalPay : ℚ
  deposit : ℚ
  newAdvance : ℚ
  payout : ℚ
  finalAmount : ℚ
  advanceBalanceAtSave : ℚ
deriving DecidableEq, Repr

/-- A SalaryHistory document. -/
structure SalaryHistoryRec where
  periodStart : ℕ
  periodEnd : ℕ
  records : List SalarySnapshot
  totalDeposit : ℚ
  totalNewAdvance : ℚ
  totalFinal : ℚ
  isSaved : Bool
deriving DecidableEq, Repr

/-- The collections the salary-history route can reach. -/
structure SalaryDB where
  workers : List SWorker
  advances : List SAdvance
  histories : List SalaryHistoryRec
deriving DecidableEq, Repr

/-- The 400 responses of the per-record validation, each naming the
failing worker. -/
inductive SalaryFailure where
  | noAdvanceBalance (workerName : String)
  | depositExceedsBalance (workerName : String)
deriving DecidableEq, Repr

/-- Post a deposit transaction and update the worker's cached balance. -/
def postSalaryDeposit (db : SalaryDB) (wid : ℕ) (amount newBalance : ℚ) : SalaryDB :=
  { db with
    advances := db.advances ++ [⟨wid, .deposit, amount, newBalance⟩]
    workers := db.workers.map fun w =>
      if w.id == wid then
        { w with advanceBalance := newBalance
                 totalAdvanceRepaid := w.totalAdvanceRepaid + amount }
      else w }

/-- Post a new-advance transaction and update the worker's cached balance. -/
def postSalaryAdvance (db : SalaryDB) (wid : ℕ) (amount newBalance : ℚ) : SalaryDB :=
  { db with
    advances := db.advances ++ [⟨wid, .advance, amount, newBalance⟩]
    workers := db.workers.map fun w =>
      if w.id == wid then
        { w with advanceBalance := newBalance
                 totalAdvanceTaken := w.totalAdvanceTaken + amount }
      else w }

/-- One iteration of the record loop: skip silently when the worker is
missing; validate and post the deposit (failing with a message naming the
worker); post the new advance against the refetched balance; emit the
snapshot. -/
def processSalaryRecord (db : SalaryDB) (rec : SalaryRecordInput) :
    Except SalaryFailure (SalaryDB × Option SalarySnapshot) :=
  match db.workers.find? (fun w => w.id == rec.workerId) with
  | none => .ok (db, none)
  | some worker =>
    let step1 : Except SalaryFailure SalaryDB :=
      if rec.deposit > 0 then
        let currentBalance := jsOr worker.advanceBalance 0
        if currentBalance ≤ 0 then .error (.noAdvanceBalance worker.name)
        else if rec.deposit > currentBalance then
          .error (.depositExceedsBalance worker.name)
        else
          .ok (postSalaryDeposit db worker.id rec.deposit (currentBalance - rec.deposit))
      else .ok db
    match step1 with
    | .error e => .error e
    | .ok db1 =>
      let db2 :=
        if rec.newAdvance > 0 then
          let updatedWorker :=
            (db1.workers.find? (fun w => w.id == rec.workerId)).getD worker
          let currentBalance := jsOr updatedWorker.advanceBalance 0
          postSalaryAdvance db1 worker.id rec.newAdvance (currentBalance + rec.newAdvance)
        else db1
      .ok (db2, some
        { worker := worker.id
          workerName := worker.name
          totalHoursWorked := jsOr rec.totalHoursWorked 0
          totalPay := jsOr rec.totalPay 0
          deposit := jsOr rec.deposit 0
          newAdvance := jsOr rec.newAdvance 0
          payout := jsOr rec.payout 0
          finalAmount := jsOr rec.finalAmount 0
          advanceBalanceAtSave := worker.advanceBalance })

/-- The record loop: on the first failure it stops — the response is the
error and every mutation already made stays in place. -/
def processSalary (db : SalaryDB) :
    List SalaryRecordInput → SalaryDB × List SalarySnapshot × Option SalaryFailure
  | [] => (db, [], none)
  | r :: rest =>
    match processSalaryRecord db r with
    | .error e => (db, [], some e)
    | .ok (db1, snap) =>
      let out := processSalary db1 rest
      (out.1, (match snap with | some s => s :: out.2.1 | none => out.2.1), out.2.2)

/-- The whole route: process the records; only when every record succeeded
append one immutable history snapshot with the aggregate sums. -/
def saveSalaryHistory (db : SalaryDB) (recs : List SalaryRecordInput) (pS pE : ℕ) :
    SalaryDB × Option SalaryFailure :=
  let out := processSalary db recs
  match out.2.2 with
  | some e => (out.1, some e)
  | none =>
    let snaps := out.2.1
    ({ out.1 with histories := out.1.histories ++
        [⟨pS, pE, snaps,
          (snaps.map fun s => s.deposit).sum,
          (snaps.map fun s => s.newAdvance).sum,
          (snaps.map fun s => s.finalAmount).sum, true⟩] }, none)

/-- A successful record step only appends to the ledger and never touches
the history list. -/
theorem postSalaryDeposit_histories (db : SalaryDB) (wid : ℕ) (a nb : ℚ) :
    (postSalaryDeposit db wid a nb).histories = db.histories := rfl

theorem postSalaryAdvance_histories (db : SalaryDB) (wid : ℕ) (a nb : ℚ) :
    (postSalaryAdvance db wid a nb).histories = db.histories := rfl

theorem postSalaryDeposit_extends (db : SalaryDB) (wid : ℕ) (a nb : ℚ) :
    db.advances <+: (postSalaryDeposit db wid a nb).advances :=
  List.prefix_append _ _

theorem postSalaryAdvance_extends (db : SalaryDB) (wid : ℕ) (a nb : ℚ) :
    db.advances <+: (postSalaryAdvance db wid a nb).advances :=
  List.prefix_append _ _

theorem processSalaryRecord_ok_frame (db : SalaryDB) (rec : SalaryRecordInput)
    (db1 : SalaryDB) (snap : Option SalarySnapshot)
    (h : processSalaryRecord db rec = .ok (db1, snap)) :
    db1.histories = db.histories ∧ db.advances <+: db1.advances := by
  rcases hfind : db.workers.find? (fun w => w.id == rec.workerId) with _ | worker
  · simp only [processSalaryRecord, hfind, Except.ok.injEq, Prod.mk.injEq] at h
    rw [← h.1]
    exact ⟨rfl, List.prefix_rfl⟩
  · by_cases hdep : rec.deposit > 0
    · by_cases hb0 : jsOr worker.advanceBalance 0 ≤ 0
      · simp only [processSalaryRecord, hfind, if_pos hdep, if_pos hb0] at h
        exact Except.noConfusion h
      · by_cases hexc : rec.deposit > jsOr worker.advanceBalance 0
        · simp only [processSalaryRecord, hfind, if_pos hdep, if_neg hb0,
            if_pos hexc] at h
          exact Except.noConfusion h
        · by_cases hadv : rec.newAdvance > 0
          · simp only [processSalaryRecord, hfind, if_pos hdep, if_neg hb0,
              if_neg hexc, if_pos hadv, Except.ok.injEq, Prod.mk.injEq] at h
            rw [← h.1]
            refine ⟨rfl, ?_⟩
            exact (postSalaryDeposit_extends db worker.id rec.deposit _).trans
              (postSalaryAdvance_extends _ worker.id rec.newAdvance _)
          · simp only [processSalaryRecord, hfind, if_pos hdep, if_neg hb0,
              if_neg hexc, if_neg hadv, Except.ok.injEq, Prod.mk.injEq] at h
            rw [← h.1]
            exact ⟨rfl, postSalaryDeposit_extends db worker.id rec.deposit _⟩
    · by_cases hadv : rec.newAdvance > 0
      · simp only [processSalaryRecord, hfind, if_neg hdep, if_pos hadv,
          Except.ok.injEq, Prod.mk.injEq] at h
        rw [← h.1]
        exact ⟨rfl, postSalaryAdvance_extends db worker.id rec.newAdvance _⟩
      · simp only [processSalaryRecord, hfind, if_neg hdep, if_neg hadv,
          Except.ok.injEq, Prod.mk.injEq] at h
        rw [← h.1]
        exact ⟨rfl, List.prefix_rfl⟩

theorem processSalary_cons_err (db : SalaryDB) (r : SalaryRecordInput)
    (rest : List SalaryRecordInput) (e : SalaryFailure)
    (h : processSalaryRecord db r = .error e) :
    processSalary db (r :: rest) = (db, [], some e) := by
  rw [processSalary, h]

theorem processSalary_cons_ok (db : SalaryDB) (r : SalaryRecordInput)
    (rest : List SalaryRecordInput) (db1 : SalaryDB) (snap : Option SalarySnapshot)
    (h : processSalaryRecord db r = .ok (db1, snap)) :
    processSalary db (r :: rest) =
      ((processSalary db1 rest).1,
        (match snap with
          | some s => s :: (processSalary db1 rest).2.1
          | none => (processSalary db1 rest).2.1),
        (processSalary db1 rest).2.2) := by
  rw [processSalary]
  simp only [h]
  cases snap <;> rfl

theorem saveSalaryHistory_of_fail (db : SalaryDB) (recs : List SalaryRecordInput)
    (pS pE : ℕ) (db' : SalaryDB) (snaps : List SalarySnapshot) (e : SalaryFailure)
    (h : processSalary db recs = (db', snaps, some e)) :
    saveSalaryHistory db recs pS pE = (db', some e) := by
  unfold saveSalaryHistory
  rw [h]

/-- C6: the settlement-finalize batch is not atomic across workers — if the
first record posts successfully and the second worker's deposit exceeds
that worker's balance, the call returns the error naming the second worker,
no further record is processed, no history snapshot is saved, and the
transactions posted for the first worker remain in effect (the final state
is exactly the state after the first record, which only appended to the
ledger). -/
theorem salary_finalize_partial_failure (db : SalaryDB)
    (r1 r2 : SalaryRecordInput) (rest : List SalaryRecordInput)
    (pS pE : ℕ) (db1 : SalaryDB) (snap : Option SalarySnapshot) (w2 : SWorker)
    (h1 : processSalaryRecord db r1 = .ok (db1, snap))
    (hw2 : db1.workers.find? (fun w => w.id == r2.workerId) = some w2)
    (hdep : r2.deposit > 0)
    (hbal : 0 < w2.advanceBalance)
    (hexceed : w2.advanceBalance < r2.deposit) :
    saveSalaryHistory db (r1 :: r2 :: rest) pS pE =
      (db1, some (.depositExceedsBalance w2.name)) ∧
    db1.histories = db.histories ∧
    db.advances <+: db1.advances := by
  have hj : jsOr w2.advanceBalance 0 = w2.advanceBalance := jsOr_zero _
  have h2 : processSalaryRecord db1 r2 = .error (.depositExceedsBalance w2.name) := by
    simp only [processSalaryRecord, hw2, if_pos hdep,
      if_neg (show ¬ jsOr w2.advanceBalance 0 ≤ 0 by rw [hj]; exact not_le.mpr hbal),
      if_pos (show r2.deposit > jsOr w2.advanceBalance 0 by rw [hj]; exact hexceed)]
  have hframe := processSalaryRecord_ok_frame db r1 db1 snap h1
  refine ⟨?_, hframe.1, hframe.2⟩
  refine saveSalaryHistory_of_fail db (r1 :: r2 :: rest) pS pE db1
    (match snap with | some s => [s] | none => []) _ ?_
  rw [processSalary_cons_ok db r1 (r2 :: rest) db1 snap h1,
    processSalary_cons_err db1 r2 rest _ h2]

/-- Settlement batch: worker A (balance 5000), worker B (balance 100),
empty ledger and history. -/
def salaryCexDb : SalaryDB :=
  { workers := [⟨1, "A", 5000, 5000, 0⟩, ⟨2, "B", 100, 100, 0⟩]
    advances := []
    histories := [] }

/-- Record for worker A: a valid 2000-unit deposit. -/
def salaryRec1 : SalaryRecordInput := ⟨1, 2000, 0, 0, 0, 0, 0⟩

/-- Record for worker B: a 500-unit deposit exceeding B's balance of 100. -/
def salaryRec2 : SalaryRecordInput := ⟨2, 500, 0, 0, 0, 0, 0⟩

/-- The store after worker A's deposit is posted. -/
def salaryCexDb1 : SalaryDB :=
  postSalaryDeposit salaryCexDb 1 2000 (jsOr 5000 0 - 2000)

/-- The snapshot emitted for worker A. -/
def salaryCexSnap1 : SalarySnapshot :=
  ⟨1, "A", jsOr 0 0, jsOr 0 0, jsOr 2000 0, jsOr 0 0, jsOr 0 0, jsOr 0 0, 5000⟩

theorem salary_finalize_partial_failure_witness :
    saveSalaryHistory salaryCexDb [salaryRec1, salaryRec2] 1 2 =
      (salaryCexDb1, some (.depositExceedsBalance "B")) ∧
    salaryCexDb1.histories = salaryCexDb.histories ∧
    salaryCexDb.advances <+: salaryCexDb1.advances :=
  salary_finalize_partial_failure salaryCexDb salaryRec1 salaryRec2 [] 1 2
    salaryCexDb1 (some salaryCexSnap1) ⟨2, "B", 100, 100, 0⟩
    rfl rfl (by norm_num [salaryRec2]) (by norm_num)
    (by norm_num [salaryRec2])

end LabourServer

